import Mathlib

/-!
Verification development for the pdnssoc-cli correlation pipeline
(`src/pdnssoccli/pdnssoccli.py` and `src/pdnssoccli/subcommands/fetch_iocs.py`).

The Python source is shallowly embedded: timestamps become `Nat` (the claims
only depend on the total order of the timestamp sort/cursor key), file contents
become explicit fields of a state record, and the side-effecting command bodies
become pure state-transformer functions translated statement by statement.
Helper modules of the repository that are not part of the provided source
(`pdnssoccli/utils/*`) are either taken as abstract parameters or modelled from
the specification, and every such definition says so in its doc comment.
-/

namespace Pdnssoc

/-- An enriched match as it reaches the output stage of `correlate`
(the result of `enrich_logs`): a dictionary with a `timestamp` key used as the
sort and cursor key, plus the rest of the document (abstracted as a string). -/
structure EnrichedMatch where
  timestamp : Nat
  payload : String
  deriving DecidableEq, Repr

/-- Stable insertion of an element into a list by ascending `timestamp`,
placing a new element before the first strictly later position; together with
`sortByTs` this models Python's stable `sorted(to_output, key=lambda d: d['timestamp'])`
at `pdnssoccli.py:270`. -/
def insertTs (x : EnrichedMatch) : List EnrichedMatch → List EnrichedMatch
  | [] => [x]
  | y :: ys => if x.timestamp ≤ y.timestamp then x :: y :: ys else y :: insertTs x ys

/-- Stable sort by ascending `timestamp`: the model of
`sorted(to_output, key=lambda d: d['timestamp'])` at `pdnssoccli.py:270`. -/
def sortByTs : List EnrichedMatch → List EnrichedMatch
  | [] => []
  | x :: xs => insertTs x (sortByTs xs)

/-- Maximum `timestamp` over a batch (0 for the empty batch). -/
def maxTs (l : List EnrichedMatch) : Nat :=
  l.foldr (fun x acc => max x.timestamp acc) 0

/-- The two files written by the output stage of `correlate`:
`matches.json` under the output directory (as its list of lines) and the
cursor file `last_correlation_pointer_file` (as its full content). -/
structure SinkState where
  matchesFile : List String
  cursorFile : String
  deriving DecidableEq, Repr

/-- Modelled from the spec: the cursor write goes through
`pdnssoccli.utils.file.write_generic`, repository code not under `src/`;
per §4.5 it overwrites the cursor file, whose whole content becomes the
single written value. -/
def writeCursor (content : String) (s : SinkState) : SinkState :=
  { s with cursorFile := content }

/-- The output stage of `correlate` (`pdnssoccli.py:269-279`):
`to_output = enriched + enriched_minified` is sorted by timestamp, each
document is appended to `matches.json` (`jsonlines.open(..., mode='a')`),
and only if `to_output` is non-empty the cursor file is rewritten with
`"{}\n".format(to_output[-1]['timestamp'])`.
`serialize` abstracts the external `jsonlines` JSON rendering of one document. -/
def persist (serialize : EnrichedMatch → String)
    (enriched enrichedMinified : List EnrichedMatch) (s : SinkState) : SinkState :=
  let to_output := sortByTs (enriched ++ enrichedMinified)
  let s1 : SinkState := { s with matchesFile := s.matchesFile ++ to_output.map serialize }
  match to_output.getLast? with
  | none => s1
  | some last => writeCursor (toString last.timestamp ++ "\n") s1

/- Helper lemmas about the stable sort. -/

theorem maxTs_cons (x : EnrichedMatch) (l : List EnrichedMatch) :
    maxTs (x :: l) = max x.timestamp (maxTs l) := rfl

theorem mem_insertTs (z x : EnrichedMatch) (l : List EnrichedMatch) :
    z ∈ insertTs x l ↔ z = x ∨ z ∈ l := by
  induction l with
  | nil => simp [insertTs]
  | cons y ys ih =>
    rw [insertTs]
    by_cases hxy : x.timestamp ≤ y.timestamp
    · simp [if_pos hxy]
    · simp only [if_neg hxy, List.mem_cons, ih]
      tauto

theorem insertTs_pairwise (x : EnrichedMatch) (l : List EnrichedMatch)
    (h : l.Pairwise (fun a b => a.timestamp ≤ b.timestamp)) :
    (insertTs x l).Pairwise (fun a b => a.timestamp ≤ b.timestamp) := by
  induction l with
  | nil => simp [insertTs]
  | cons y ys ih =>
    rw [insertTs]
    rcases List.pairwise_cons.mp h with ⟨hy, hys⟩
    by_cases hxy : x.timestamp ≤ y.timestamp
    · simp only [if_pos hxy]
      refine List.pairwise_cons.mpr ⟨?_, h⟩
      intro z hz
      rcases List.mem_cons.mp hz with rfl | hz
      · exact hxy
      · exact le_trans hxy (hy z hz)
    · simp only [if_neg hxy]
      refine List.pairwise_cons.mpr ⟨?_, ih hys⟩
      intro z hz
      rcases (mem_insertTs z x ys).mp hz with rfl | hmemys
      · exact le_of_not_le hxy
      · exact hy z hmemys

theorem sortByTs_pairwise (l : List EnrichedMatch) :
    (sortByTs l).Pairwise (fun a b => a.timestamp ≤ b.timestamp) := by
  induction l with
  | nil => simp [sortByTs]
  | cons x xs ih => exact insertTs_pairwise x (sortByTs xs) ih

theorem filter_insertTs (x : EnrichedMatch) (l : List EnrichedMatch) (t : Nat) :
    (insertTs x l).filter (fun m => m.timestamp == t)
      = (if x.timestamp == t then [x] else []) ++ l.filter (fun m => m.timestamp == t) := by
  induction l with
  | nil => by_cases hx : x.timestamp = t <;> simp [insertTs, hx]
  | cons y ys ih =>
    rw [insertTs]
    by_cases hxy : x.timestamp ≤ y.timestamp
    · simp only [if_pos hxy, List.filter_cons]
      by_cases hx : x.timestamp = t <;> simp [hx]
    · simp only [if_neg hxy, List.filter_cons]
      by_cases hy : y.timestamp = t
      · have hx : ¬ (x.timestamp = t) := by
          intro hx
          exact hxy (by rw [hx, hy])
        simp [hy, hx, ih]
      · by_cases hx : x.timestamp = t <;> simp [hy, hx, ih]

theorem filter_sortByTs (l : List EnrichedMatch) (t : Nat) :
    (sortByTs l).filter (fun m => m.timestamp == t)
      = l.filter (fun m => m.timestamp == t) := by
  induction l with
  | nil => rfl
  | cons x xs ih =>
    rw [sortByTs, filter_insertTs, ih, List.filter_cons]
    by_cases hx : x.timestamp = t <;> simp [hx]

theorem maxTs_insertTs (x : EnrichedMatch) (l : List EnrichedMatch) :
    maxTs (insertTs x l) = max x.timestamp (maxTs l) := by
  induction l with
  | nil => rfl
  | cons y ys ih =>
    rw [insertTs]
    by_cases hxy : x.timestamp ≤ y.timestamp
    · rw [if_pos hxy, maxTs_cons]
    · rw [if_neg hxy, maxTs_cons, ih, maxTs_cons]
      exact max_left_comm _ _ _

theorem maxTs_sortByTs (l : List EnrichedMatch) : maxTs (sortByTs l) = maxTs l := by
  induction l with
  | nil => rfl
  | cons x xs ih => rw [sortByTs, maxTs_insertTs, ih, maxTs_cons]

theorem le_maxTs_of_mem (x : EnrichedMatch) (l : List EnrichedMatch)
    (h : x ∈ l) : x.timestamp ≤ maxTs l := by
  induction l with
  | nil => cases h
  | cons y ys ih =>
    rcases List.mem_cons.mp h with rfl | h
    · rw [maxTs_cons]
      exact le_max_left _ _
    · rw [maxTs_cons]
      exact le_trans (ih h) (le_max_right _ _)

theorem getLast?_ts_of_sorted (l : List EnrichedMatch)
    (hs : l.Pairwise (fun a b => a.timestamp ≤ b.timestamp)) (hne : l ≠ []) :
    ∃ last, l.getLast? = some last ∧ last.timestamp = maxTs l := by
  induction l with
  | nil => exact absurd rfl hne
  | cons x xs ih =>
    cases xs with
    | nil =>
      refine ⟨x, rfl, ?_⟩
      simp [maxTs]
    | cons y ys =>
      rcases List.pairwise_cons.mp hs with ⟨hx, hs'⟩
      rcases ih hs' (by simp) with ⟨last, hlast, hts⟩
      refine ⟨last, ?_, ?_⟩
      · rw [List.getLast?_cons_cons]
        exact hlast
      · have hxle : x.timestamp ≤ maxTs (y :: ys) := by
          have : y.timestamp ≤ maxTs (y :: ys) :=
            le_maxTs_of_mem y (y :: ys) (List.mem_cons_self _ _)
          exact le_trans (hx y (List.mem_cons_self _ _)) this
        rw [maxTs_cons, max_eq_right hxle]
        exact hts

theorem sortByTs_nil_iff (l : List EnrichedMatch) : sortByTs l = [] ↔ l = [] := by
  constructor
  · intro h
    cases l with
    | nil => rfl
    | cons x xs =>
      exfalso
      rw [sortByTs] at h
      cases hsort : sortByTs xs with
      | nil => rw [hsort] at h; simp [insertTs] at h
      | cons y ys =>
        rw [hsort, insertTs] at h
        by_cases hxy : x.timestamp ≤ y.timestamp
        · simp [if_pos hxy] at h
        · simp [if_neg hxy] at h
  · intro h; rw [h]; rfl

/-- One regular input file handed to `correlate`: `readable` is the truthiness
of the `file_iter` returned by `read_file`, `isMinified` the file-local
encoding detection, `matches` the matches `correlate_file` extracts from it. -/
structure InputFile where
  name : String
  isMinified : Bool
  readable : Bool
  fileMatches : List EnrichedMatch
  deriving DecidableEq, Repr

/-- One command-line input item of `correlate`: a regular file, or a directory
whose nested regular files are found by `rglob('*')`. -/
inductive InputItem where
  | file (f : InputFile)
  | dir (name : String) (nested : List InputFile)
  deriving DecidableEq, Repr

/-- Observable side effects of a `correlate` run, in program order. -/
inductive Event where
  | correlated (name : String) (numMatches : Nat)
  | deleted (name : String)
  | persisted
  deriving DecidableEq, Repr

/-- Events produced while processing one input item in the main loop of
`correlate` (`pdnssoccli.py:210-260`): a regular file is correlated (when
readable) and then, still inside the loop iteration, unlinked if
`--delete-on-success` is set (`pdnssoccli.py:233-234`); a directory has each
nested file correlated and is then removed with `shutil.rmtree`
(`pdnssoccli.py:259-260`). -/
def itemEvents (delete_on_success : Bool) : InputItem → List Event
  | .file f =>
    (if f.readable then [Event.correlated f.name f.fileMatches.length] else [])
      ++ (if delete_on_success then [Event.deleted f.name] else [])
  | .dir name nested =>
    (nested.map (fun f =>
        if f.readable then [Event.correlated f.name f.fileMatches.length] else [])).flatten
      ++ (if delete_on_success then [Event.deleted name] else [])

/-- The side-effect trace of a whole `correlate` run: the per-item loop
(`pdnssoccli.py:210-260`) runs first, and only afterwards are the accumulated
matches enriched and persisted to `matches.json` and the cursor
(`pdnssoccli.py:263-279`). -/
def correlateTrace (delete_on_success : Bool) (items : List InputItem) : List Event :=
  (items.map (itemEvents delete_on_success)).flatten ++ [Event.persisted]

/-- The ordering property claimed of deletion: every deletion event is
preceded by the persistence of the output. -/
def deletesOnlyAfterPersist (tr : List Event) : Prop :=
  ∀ i name, tr.get? i = some (Event.deleted name) →
    ∃ j, j < i ∧ tr.get? j = some Event.persisted

/-- C1: when the combined enriched output batch of a `correlate` run is empty
(`to_output` is falsy at `pdnssoccli.py:277`), the cursor file
`last_correlation_pointer_file` is left byte-for-byte unchanged: `persist`
never writes it when there are zero resulting matches. -/
theorem C1_empty_batch_leaves_cursor (serialize : EnrichedMatch → String)
    (enriched enrichedMinified : List EnrichedMatch) (s : SinkState)
    (h : enriched ++ enrichedMinified = []) :
    (persist serialize enriched enrichedMinified s).cursorFile = s.cursorFile := by
  simp only [persist, h]
  rfl

theorem C1_empty_batch_leaves_cursor_witness :
    ([] : List EnrichedMatch) ++ [] = [] ∧
      (persist (fun m => m.payload) [] [] ⟨["doc"], "2024-01-01T00:00:00Z\n"⟩).cursorFile
        = "2024-01-01T00:00:00Z\n" :=
  ⟨rfl, C1_empty_batch_leaves_cursor (fun m => m.payload) [] []
    ⟨["doc"], "2024-01-01T00:00:00Z\n"⟩ rfl⟩

/-- C2: when the combined enriched output batch of a `correlate` run is
non-empty, the cursor file is overwritten with exactly one value: the maximum
timestamp over all enriched matches of the batch, written as a single line
(`"{}\n".format(to_output[-1]['timestamp'])` at `pdnssoccli.py:279`, where
`to_output[-1]` is the last element of the ascending timestamp sort). -/
theorem C2_nonempty_batch_cursor_is_max (serialize : EnrichedMatch → String)
    (enriched enrichedMinified : List EnrichedMatch) (s : SinkState)
    (h : enriched ++ enrichedMinified ≠ []) :
    (persist serialize enriched enrichedMinified s).cursorFile
      = toString (maxTs (enriched ++ enrichedMinified)) ++ "\n" := by
  have hs : sortByTs (enriched ++ enrichedMinified) ≠ [] := by
    rw [Ne, sortByTs_nil_iff]
    exact h
  obtain ⟨last, hlast, hts⟩ :=
    getLast?_ts_of_sorted (sortByTs (enriched ++ enrichedMinified))
      (sortByTs_pairwise (enriched ++ enrichedMinified)) hs
  simp only [persist, hlast, writeCursor]
  rw [hts, maxTs_sortByTs]

theorem C2_nonempty_batch_cursor_is_max_witness :
    ([⟨3, "a"⟩] : List EnrichedMatch) ++ [⟨1, "b"⟩, ⟨7, "c"⟩] ≠ [] ∧
      (persist (fun m => m.payload) [⟨3, "a"⟩] [⟨1, "b"⟩, ⟨7, "c"⟩] ⟨[], "old"⟩).cursorFile
        = toString (maxTs ([⟨3, "a"⟩] ++ [⟨1, "b"⟩, ⟨7, "c"⟩])) ++ "\n" :=
  ⟨by simp, C2_nonempty_batch_cursor_is_max (fun m => m.payload)
    [⟨3, "a"⟩] [⟨1, "b"⟩, ⟨7, "c"⟩] ⟨[], "old"⟩ (by simp)⟩

/-- C3: the sequence persisted to `matches.json` is the batch sorted by
timestamp in ascending order, the sort is stable (matches with equal
timestamps keep their original traversal order: for every timestamp value the
subsequence of matches carrying it is unchanged), and in particular inputs
with timestamps [3, 1, 2] are written in the order [1, 2, 3]. -/
theorem C3_persisted_order_sorted_stable (serialize : EnrichedMatch → String)
    (enriched enrichedMinified : List EnrichedMatch) (s : SinkState) :
    ((persist serialize enriched enrichedMinified s).matchesFile
        = s.matchesFile ++ (sortByTs (enriched ++ enrichedMinified)).map serialize)
    ∧ (sortByTs (enriched ++ enrichedMinified)).Pairwise
        (fun a b => a.timestamp ≤ b.timestamp)
    ∧ (∀ t, (sortByTs (enriched ++ enrichedMinified)).filter (fun m => m.timestamp == t)
          = (enriched ++ enrichedMinified).filter (fun m => m.timestamp == t))
    ∧ sortByTs [⟨3, "r3"⟩, ⟨1, "r1"⟩, ⟨2, "r2"⟩] = [⟨1, "r1"⟩, ⟨2, "r2"⟩, ⟨3, "r3"⟩] := by
  refine ⟨?_, sortByTs_pairwise _, fun t => filter_sortByTs _ t, by rfl⟩
  cases hl : (sortByTs (enriched ++ enrichedMinified)).getLast? <;>
    simp [persist, writeCursor, hl]

/-- C4: contrary to the claim, with `--delete-on-success` the code deletes
each input file inside the per-file loop (`file_path.unlink()` at
`pdnssoccli.py:233-234`), before its matches are enriched and persisted
(`pdnssoccli.py:263-279`): on a run over one readable file yielding one match,
the trace is [correlated, deleted, persisted], so deletion is not preceded by
persistence. -/
theorem C4_deletion_precedes_persistence :
    correlateTrace true [InputItem.file ⟨"query.log", false, true, [⟨5, "m"⟩]⟩]
      = [Event.correlated "query.log" 1, Event.deleted "query.log", Event.persisted]
    ∧ ¬ deletesOnlyAfterPersist
        (correlateTrace true [InputItem.file ⟨"query.log", false, true, [⟨5, "m"⟩]⟩]) := by
  refine ⟨rfl, ?_⟩
  intro h
  obtain ⟨j, hj, hget⟩ := h 1 "query.log" rfl
  have hj0 : j = 0 := Nat.lt_one_iff.mp hj
  subst hj0
  exact absurd hget (by decide)

/-- A parsed DNS observation record: timestamp plus the fields the matcher
inspects (query name, answers, source IPs), abstracted as strings. -/
structure DnsRecord where
  timestamp : Nat
  queryName : String
  answers : List String
  deriving DecidableEq, Repr

/-- Which indicator kind a match came from. -/
inductive IndicatorType where
  | domain
  | ip
  deriving DecidableEq, Repr

/-- The indicator hit part of a Match: its type and the matched value. -/
structure MatchInfo where
  indicatorType : IndicatorType
  matchedValue : String
  deriving DecidableEq, Repr

/-- Modelled from the spec: `pdnssoccli.utils.correlation.correlate_file` is
repository code not under `src/`; only its callers are
(`pdnssoccli.py:218-225`). Per §4.3, per record: if
`record.timestamp < windowStart or record.timestamp >= windowEnd`, skip (no
match, no error); otherwise emit the record's indicator matches, pairing each
with its originating record (the per-record indicator tests of §4.3 steps 2-3
are abstracted as `recordMatches`, so window exclusion can be stated
regardless of indicator content). Matches are emitted in traversal order. -/
def correlate_file (recordMatches : DnsRecord → List MatchInfo)
    (records : List DnsRecord) (start_date end_date : Nat) :
    List (DnsRecord × MatchInfo) :=
  records.foldr (fun r acc =>
    if start_date ≤ r.timestamp ∧ r.timestamp < end_date
    then (recordMatches r).map (fun m => (r, m)) ++ acc
    else acc) []

/-- C5: every emitted Match originates from a record whose timestamp lies in
the half-open window [windowStart, windowEnd); a record with timestamp
strictly before the start or at or after the end produces no Match regardless
of indicator content, and a record exactly at the window end is excluded. -/
theorem C5_window_half_open (recordMatches : DnsRecord → List MatchInfo)
    (records : List DnsRecord) (start_date end_date : Nat) :
    (∀ p ∈ correlate_file recordMatches records start_date end_date,
        start_date ≤ p.1.timestamp ∧ p.1.timestamp < end_date)
    ∧ (∀ r : DnsRecord, r.timestamp < start_date ∨ end_date ≤ r.timestamp →
        correlate_file recordMatches [r] start_date end_date = [])
    ∧ (∀ r : DnsRecord, r.timestamp = end_date →
        correlate_file recordMatches [r] start_date end_date = []) := by
  refine ⟨?_, ?_, ?_⟩
  · intro p hp
    induction records with
    | nil => cases hp
    | cons r rest ih =>
      rw [correlate_file, List.foldr_cons] at hp
      by_cases hw : start_date ≤ r.timestamp ∧ r.timestamp < end_date
      · rw [if_pos hw] at hp
        rcases List.mem_append.mp hp with hmem | hmem
        · rcases List.mem_map.mp hmem with ⟨m, _, rfl⟩
          exact hw
        · exact ih hmem
      · rw [if_neg hw] at hp
        exact ih hp
  · intro r hr
    have hw : ¬ (start_date ≤ r.timestamp ∧ r.timestamp < end_date) := by omega
    simp [correlate_file, hw]
  · intro r hr
    have hw : ¬ (start_date ≤ r.timestamp ∧ r.timestamp < end_date) := by omega
    simp [correlate_file, hw]

theorem C5_window_half_open_witness :
    (⟨10, "evil.com", []⟩ : DnsRecord).timestamp = 10
    ∧ correlate_file (fun r => [⟨IndicatorType.domain, r.queryName⟩])
        [⟨10, "evil.com", []⟩] 5 10 = [] :=
  ⟨rfl, (C5_window_half_open (fun r => [⟨IndicatorType.domain, r.queryName⟩])
      [⟨10, "evil.com", []⟩] 5 10).2.2 ⟨10, "evil.com", []⟩ rfl⟩

/-- Python `str.strip()` with no arguments: remove leading and trailing
whitespace. Defined over the character list so that concrete instances reduce
by evaluation (`String.trim` itself is equivalent but does not reduce well). -/
def pyStrip (s : String) : String :=
  String.mk (((s.toList.dropWhile Char.isWhitespace).reverse.dropWhile
    Char.isWhitespace).reverse)

/-- ASCII lowercasing of a string, character by character, defined over the
character list so that concrete instances reduce by evaluation. -/
def pyLower (s : String) : String :=
  String.mk (s.toList.map Char.toLower)

/-- Python-style de-duplication `list(set(xs))`: one copy of each distinct
value. A Python set does not preserve insertion order, and the callers use
the result only through `set(...)` again, so only membership and
distinctness matter; this model keeps the last occurrence of each value. -/
def dedupList : List String → List String
  | [] => []
  | x :: xs => if x ∈ xs then dedupList xs else x :: dedupList xs

theorem mem_dedupList (x : String) (l : List String) : x ∈ dedupList l ↔ x ∈ l := by
  induction l with
  | nil => simp [dedupList]
  | cons y ys ih =>
    rw [dedupList]
    by_cases hy : y ∈ ys
    · rw [if_pos hy, ih]
      constructor
      · exact fun h => List.mem_cons_of_mem _ h
      · intro h
        rcases List.mem_cons.mp h with rfl | h
        · exact hy
        · exact h
    · rw [if_neg hy]
      simp [ih]

theorem nodup_dedupList (l : List String) : (dedupList l).Nodup := by
  induction l with
  | nil => simp [dedupList]
  | cons y ys ih =>
    rw [dedupList]
    by_cases hy : y ∈ ys
    · rw [if_pos hy]
      exact ih
    · rw [if_neg hy]
      exact List.nodup_cons.mpr ⟨fun h => hy ((mem_dedupList y ys).mp h), ih⟩

/-- Build of the malicious-domain indicator list in `correlate`
(`pdnssoccli.py:174-185`, file-sourced branch): each line of the domains file
is `.strip()`ed and appended verbatim, then the list is de-duplicated with
`domain_attributes = list(set(domain_attributes))`. No lowercasing occurs. -/
def buildDomainAttributes (lines : List String) : List String :=
  dedupList (lines.map pyStrip)

/-- C6 counterexample: the build of the domain indicator set does not
lowercase: building from the single line "EVIL.com" keeps "EVIL.com" verbatim,
does not contain "evil.com", and the built list is not all-lowercase. -/
theorem C6_counterexample_no_lowercasing :
    buildDomainAttributes ["EVIL.com"] = ["EVIL.com"]
    ∧ "evil.com" ∉ buildDomainAttributes ["EVIL.com"]
    ∧ ¬ (∀ v ∈ buildDomainAttributes ["EVIL.com"], v = pyLower v) := by
  refine ⟨rfl, by decide, by decide⟩

/-- C6 (amended): when the domain indicator set is built, every value is
stripped of surrounding whitespace and de-duplicated, but kept in its
original case — a value occurs in the built list exactly when it is the
`.strip()` of some source line, the built list has no duplicates, and
mixed-case values survive verbatim. -/
theorem C6_amended_build_strips_dedups_keeps_case (lines : List String) :
    (buildDomainAttributes lines).Nodup
    ∧ (∀ v, v ∈ buildDomainAttributes lines ↔ ∃ l ∈ lines, pyStrip l = v)
    ∧ buildDomainAttributes ["EVIL.com", " evil.com ", "evil.com"]
        = ["EVIL.com", "evil.com"] := by
  refine ⟨nodup_dedupList _, ?_, by decide⟩
  intro v
  rw [buildDomainAttributes, mem_dedupList, List.mem_map]

/-- Build of the malicious-IP indicator list in `correlate`
(`pdnssoccli.py:188-196`, file-sourced branch): each line is `.strip()`ed and
parsed with `ipaddress.ip_network(..., strict=False)` (a Python
standard-library parser external to the repository, abstracted as `parse`);
a successful parse is appended, a `ValueError` is caught, logged as the
warning `"Invalid malicious IP value {}"` with the raw line, and the loop
continues with the next line. Returns the built list and the warning log. -/
def buildIpAttributes {Net : Type} (parse : String → Option Net) :
    List String → List Net × List String
  | [] => ([], [])
  | a :: rest =>
    let done := buildIpAttributes parse rest
    match parse (pyStrip a) with
    | some n => (n :: done.1, done.2)
    | none => (done.1, ("Invalid malicious IP value " ++ a) :: done.2)

/-- C7: for every IP indicator source and every parser, the build never
aborts (it is a total function on the whole line list), the built list is
exactly the successful parses of the stripped lines in order (all well-formed
lines included), and each line failing IP-network parsing is dropped with
exactly one logged warning naming it. -/
theorem C7_malformed_ip_dropped_with_warning {Net : Type}
    (parse : String → Option Net) (lines : List String) :
    (buildIpAttributes parse lines).1 = lines.filterMap (fun a => parse (pyStrip a))
    ∧ (buildIpAttributes parse lines).2
        = (lines.filter (fun a => (parse (pyStrip a)).isNone)).map
            (fun a => "Invalid malicious IP value " ++ a) := by
  induction lines with
  | nil => exact ⟨rfl, rfl⟩
  | cons a rest ih =>
    rw [buildIpAttributes]
    cases hp : parse (pyStrip a) <;>
      simp [List.filterMap_cons, List.filter_cons, hp, ih.1, ih.2]

/-- Outcome of the start-date determination: either a start date in hand, or
the run aborts with an uncaught exception. -/
inductive StartDate where
  | ok (d : Nat)
  | aborted
  deriving DecidableEq, Repr

/-- Modelled from the spec: `pdnssoccli.utils.file.read_file` is repository
code not under `src/`; per §4.1 reading a missing/unreadable/unparsable file
yields an empty line sequence rather than failing, so `cursorLines` is the
(possibly empty) line sequence the cursor read yields. `parse_rfc3339_ns` is
likewise not under `src/` and is abstracted as a total `parseTs`. The rest
translates the start-date determination of `correlate`
(`pdnssoccli.py:140-154`) from the source: if
no `--start-date` was given and the config names a
`last_correlation_pointer_file`, the variable `start_date` is assigned only
inside `for line in correlation_last: ... break`; when the cursor read yields
no lines the loop body never runs, `start_date` stays unbound, and its use at
`pdnssoccli.py:158-161` raises `UnboundLocalError` (`aborted`). Only when the
config has no cursor-file entry at all does the code fall back to
`datetime.now()`. -/
def determineStartDate (startArg : Option Nat) (cursorConfigured : Bool)
    (cursorLines : List String) (parseTs : String → Nat) (now : Nat) : StartDate :=
  match startArg with
  | some d => .ok d
  | none =>
    if cursorConfigured then
      match cursorLines with
      | [] => .aborted
      | line :: _ => .ok (parseTs line)
    else .ok now

/-- C8: contrary to the claim, when no explicit start date is given and the
configured cursor file is missing or unreadable (its read yields no lines),
`correlate` does not fall back to "now": `start_date` is never assigned and
the run aborts with `UnboundLocalError`, logging no warning. The claimed
fallback to "now" happens only in the branch where the config has no
`last_correlation_pointer_file` entry at all. -/
theorem C8_cursor_read_failure_aborts (parseTs : String → Nat) (now : Nat) :
    determineStartDate none true [] parseTs now = StartDate.aborted
    ∧ determineStartDate none true [] parseTs now ≠ StartDate.ok now
    ∧ determineStartDate none false [] parseTs now = StartDate.ok now := by
  refine ⟨rfl, ?_, rfl⟩
  simp [determineStartDate]

/-- One regular input file of `correlate` as seen by the routing loop:
its encoding detection result and the matches extracted from it. -/
structure RoutedFile where
  name : String
  isMinified : Bool
  fileMatches : List EnrichedMatch
  deriving DecidableEq, Repr

/-- The bucket-routing loop of `correlate` (`pdnssoccli.py:210-231`): the
matches of a file whose `read_file` detection reports the minified encoding
are extended onto `total_matches_minified`, all others onto `total_matches`,
in file-traversal order. -/
def routeMatches : List RoutedFile → List EnrichedMatch × List EnrichedMatch
  | [] => ([], [])
  | f :: rest =>
    let done := routeMatches rest
    if f.isMinified then (done.1, f.fileMatches ++ done.2)
    else (f.fileMatches ++ done.1, done.2)

/-- The tail of `correlate` (`pdnssoccli.py:207-279`): route each file's
matches into the full/minified buckets, enrich each bucket with its own
`enrich_logs` call (`pdnssoccli.py:263-264`; `enrich_logs` is repository code
not under `src/`, abstracted as the functions `enrich` and `enrichMin` for
the two calls), then persist both enriched batches to the single
`matches.json` sink. -/
def correlateRun (serialize : EnrichedMatch → String)
    (enrich enrichMin : List EnrichedMatch → List EnrichedMatch)
    (files : List RoutedFile) (s : SinkState) : SinkState :=
  persist serialize (enrich (routeMatches files).1)
    (enrichMin (routeMatches files).2) s

/-- C9: matches are routed into two batches by their file-local encoding tag
(the full bucket collects exactly the matches of non-minified files, the
minified bucket exactly those of minified files, each in traversal order),
the two batches are enriched by independent `enrich_logs` calls, and both
results are appended — the prior content surviving as a prefix, never
overwritten — to the single `matches.json` file. -/
theorem C9_buckets_routed_enriched_appended (serialize : EnrichedMatch → String)
    (enrich enrichMin : List EnrichedMatch → List EnrichedMatch)
    (files : List RoutedFile) (s : SinkState) :
    ((routeMatches files).1
        = ((files.filter (fun f => !f.isMinified)).map (fun f => f.fileMatches)).flatten)
    ∧ ((routeMatches files).2
        = ((files.filter (fun f => f.isMinified)).map (fun f => f.fileMatches)).flatten)
    ∧ (correlateRun serialize enrich enrichMin files s).matchesFile
        = s.matchesFile
          ++ (sortByTs (enrich (routeMatches files).1
                ++ enrichMin (routeMatches files).2)).map serialize := by
  refine ⟨?_, ?_, ?_⟩
  · induction files with
    | nil => rfl
    | cons f rest ih =>
      rw [routeMatches]
      cases hm : f.isMinified <;> simp [List.filter_cons, hm, ih]
  · induction files with
    | nil => rfl
    | cons f rest ih =>
      rw [routeMatches]
      cases hm : f.isMinified <;> simp [List.filter_cons, hm, ih]
  · rw [correlateRun]
    cases hl : (sortByTs (enrich (routeMatches files).1
        ++ enrichMin (routeMatches files).2)).getLast? <;>
      simp [persist, writeCursor, hl]

/-- Python set equality `set(a) == set(b)` on string lists: mutual
membership, as an executable Boolean. -/
def sameSet (a b : List String) : Bool :=
  a.all (fun x => decide (x ∈ b)) && b.all (fun x => decide (x ∈ a))

theorem sameSet_iff (a b : List String) :
    sameSet a b = true ↔ (∀ x, x ∈ a ↔ x ∈ b) := by
  simp only [sameSet, Bool.and_eq_true, List.all_eq_true, decide_eq_true_eq]
  constructor
  · rintro ⟨h1, h2⟩ x
    exact ⟨fun hx => h1 x hx, fun hx => h2 x hx⟩
  · intro h
    exact ⟨fun x hx => (h x).mp hx, fun x hx => (h x).mpr hx⟩

/-- One indicator-file synchronization step of `fetch_iocs`
(`fetch_iocs.py:107-137`; the domains file at lines 117-121 and the IPs file
at lines 133-137 follow the same shape): the existing file's lines are
`.strip()`ed into the old list; if `set(old) != set(new)` the file is
overwritten via `write_generic` with `"{}\n".format(v)` for each `v` in
`list(set(new))`, otherwise nothing is written. Returns `none` when the file
is not written and `some content` when it is rewritten. -/
def fetchIocsFileStep (oldLines newValues : List String) : Option (List String) :=
  if sameSet (oldLines.map pyStrip) newValues then none
  else some ((dedupList newValues).map (fun v => v ++ "\n"))

/-- The pair of indicator files maintained by `fetch_iocs`. -/
structure IocFilesState where
  domainsFile : List String
  ipsFile : List String
  deriving DecidableEq, Repr

/-- The file-updating portion of `fetch_iocs` (`fetch_iocs.py:107-137`):
the domains file and the IPs file are each synchronized against the values
fetched from the intelligence servers by one `fetchIocsFileStep`. -/
def fetch_iocs_sync (domainsNew ipsNew : List String) (s : IocFilesState) :
    IocFilesState :=
  { domainsFile := (fetchIocsFileStep s.domainsFile domainsNew).getD s.domainsFile,
    ipsFile := (fetchIocsFileStep s.ipsFile ipsNew).getD s.ipsFile }

/-- C10: `fetch_iocs` rewrites an indicator file exactly when the set of
fetched values differs from the set of (stripped) values already in the
file — for both the domains file and the IPs file the step writes nothing
if and only if the two sets are equal, and when both sets are unchanged the
whole run leaves both files untouched. -/
theorem C10_rewrite_iff_sets_differ (domainsNew ipsNew : List String)
    (s : IocFilesState) :
    (fetchIocsFileStep s.domainsFile domainsNew = none
        ↔ ∀ x, x ∈ s.domainsFile.map pyStrip ↔ x ∈ domainsNew)
    ∧ (fetchIocsFileStep s.ipsFile ipsNew = none
        ↔ ∀ x, x ∈ s.ipsFile.map pyStrip ↔ x ∈ ipsNew)
    ∧ ((fetchIocsFileStep s.domainsFile domainsNew = none
          ∧ fetchIocsFileStep s.ipsFile ipsNew = none)
        → fetch_iocs_sync domainsNew ipsNew s = s) := by
  have key : ∀ old new : List String,
      fetchIocsFileStep old new = none ↔ (∀ x, x ∈ old.map pyStrip ↔ x ∈ new) := by
    intro old new
    rw [fetchIocsFileStep]
    by_cases hs : sameSet (old.map pyStrip) new = true
    · simp [hs, (sameSet_iff _ _).mp hs]
    · simp only [hs, Bool.false_eq_true, if_false]
      constructor
      · intro hcontr
        exact absurd hcontr (by simp)
      · intro hall
        exact absurd ((sameSet_iff _ _).mpr hall) hs
  refine ⟨key _ _, key _ _, ?_⟩
  rintro ⟨hd, hi⟩
  rw [fetch_iocs_sync, hd, hi]
  rfl

theorem C10_rewrite_iff_sets_differ_witness :
    fetch_iocs_sync ["evil.com"] ["10.0.0.0/8"]
        ⟨["evil.com"], ["10.0.0.0/8"]⟩
      = ⟨["evil.com"], ["10.0.0.0/8"]⟩ :=
  (C10_rewrite_iff_sets_differ ["evil.com"] ["10.0.0.0/8"]
      ⟨["evil.com"], ["10.0.0.0/8"]⟩).2.2 ⟨by decide, by decide⟩

end Pdnssoc
